import Mathlib



/-!
Verification of the Veritas Kanban notification/mention engine and agent
liveness registry, as described in the project specification.

The server implementations (`notification-service`, `agent-registry-service`
and the notification route layer) are not present in the provided sources;
only their unit and route test files are. All operation definitions below are
therefore modelled from the specification text, and the test files' expected
behaviours are re-checked against the model as concrete evaluation theorems.

Strings are handled via their character lists; timestamps are a logical
`Nat` clock; notification ids are the `Nat` counter `nextId`.
-/



/-- Modelled from the spec: ASCII lower-casing applied to agent handles
(the engines lower-case handles for storage and comparison). -/
def lowerChar (c : Char) : Char :=
  if 65 ≤ c.toNat ∧ c.toNat ≤ 90 then Char.ofNat (c.toNat + 32) else c

def lowerStr (s : String) : String :=
  ⟨s.data.map lowerChar⟩

def isHandleChar (c : Char) : Bool :=
  (48 ≤ c.toNat ∧ c.toNat ≤ 57) ∨ (65 ≤ c.toNat ∧ c.toNat ≤ 90) ∨
    (97 ≤ c.toNat ∧ c.toNat ≤ 122) ∨ c = '-' ∨ c = '_'

def scanAux : List Char → Option (List Char) → List String
  | [], none => []
  | [], some acc => if acc.isEmpty then [] else [⟨acc.reverse⟩]
  | c :: rest, some acc =>
    if isHandleChar c then scanAux rest (some (c :: acc))
    else
      let tail := scanAux rest (if c = '@' then some [] else none)
      if acc.isEmpty then tail else ⟨acc.reverse⟩ :: tail
  | c :: rest, none => scanAux rest (if c = '@' then some [] else none)

def scanMentions (l : List Char) : List String :=
  scanAux l none

def insertDedup (seen : List String) : List String → List String
  | [] => []
  | x :: xs => if x ∈ seen then insertDedup seen xs else x :: insertDedup (x :: seen) xs

/-- Modelled from the spec: the Mention Parser. Extracts `@`-handle tokens
(alphanumeric, hyphen, underscore), lower-cases them and deduplicates them
keeping first occurrences in order. The parser implementation is absent from
the provided sources; only its unit tests are. -/
def parseMentions (text : String) : List String :=
  insertDedup [] ((scanMentions text.data).map lowerStr)

/-- Reference form of first-occurrence deduplication, written after the
spec words "deduplicated, insertion-order preserved": keep each element's
first occurrence, drop every later duplicate. -/
def keepFirsts : List String → List String
  | [] => []
  | x :: xs => x :: (keepFirsts xs).filter (· ≠ x)

inductive NotifType
  | mention | reply | assignment | system | error
deriving DecidableEq, Repr

inductive SubReason
  | commented | mentioned | assigned | manual
deriving DecidableEq, Repr

structure Notification where
  id : Nat
  type : NotifType
  taskId : Option String
  fromAgent : String
  targetAgent : String
  content : String
  createdAt : Nat
  delivered : Bool
  deliveredAt : Option Nat
deriving DecidableEq, Repr

structure Subscription where
  taskId : String
  agent : String
  reason : SubReason
  subscribedAt : Nat
deriving DecidableEq, Repr

structure NotifState where
  notifications : List Notification
  subscriptions : List Subscription
  nextId : Nat
  now : Nat
deriving DecidableEq, Repr

def initNotifState : NotifState := ⟨[], [], 0, 0⟩

/-- Modelled from the spec: `subscribe(taskId, agent, reason)`. The agent
handle is lower-cased before storage; a no-op (that does not overwrite the
reason) when `(taskId, agent)` already exists. -/
def subscribe (taskId agent : String) (reason : SubReason) (s : NotifState) : NotifState :=
  let a := lowerStr agent
  if s.subscriptions.any (fun sub => sub.taskId == taskId && sub.agent == a) then s
  else { s with subscriptions := s.subscriptions ++ [⟨taskId, a, reason, s.now⟩] }

def getSubscriptions (taskId : String) (s : NotifState) : List Subscription :=
  s.subscriptions.filter (fun sub => sub.taskId == taskId)

def createNotifs (taskId : Option String) (fromA content : String) :
    List (String × NotifType) → NotifState → List Notification × NotifState
  | [], s => ([], s)
  | (t, ty) :: rest, s =>
    let n : Notification := ⟨s.nextId, ty, taskId, fromA, t, content, s.now, false, none⟩
    let p := createNotifs taskId fromA content rest
      { s with notifications := s.notifications ++ [n], nextId := s.nextId + 1 }
    (n :: p.1, p.2)

def explicitTargets (fromA : String) (mentions allA : List String) : List String :=
  insertDedup [] (mentions.flatMap fun m =>
    if m = "all" then allA.filter (fun a => a != fromA)
    else if m = fromA then [] else [m])

def taskSubscribers (taskId : String) (s : NotifState) : List String :=
  (s.subscriptions.filter (fun sub => sub.taskId == taskId)).map Subscription.agent

def commentExplicit (fromA content : String) (allAgents : Option (List String)) :
    List String :=
  explicitTargets fromA (parseMentions content) ((allAgents.getD []).map lowerStr)

def commentImplicit (taskId fromA : String) (explicit : List String) (s : NotifState) :
    List String :=
  (taskSubscribers taskId s).filter (fun a => !(explicit.contains a) && a != fromA)

/-- Modelled from the spec: `processComment`. Parses mentions, expands
`@all` over `allAgents` minus the commenter, excludes self-mentions,
deduplicates the explicit-target set, adds thread subscribers as implicit
`reply` targets, creates the notifications, then subscribes the commenter
(`commented`) and every explicitly mentioned agent (`mentioned`). -/
def processComment (taskId fromAgent content : String) (allAgents : Option (List String))
    (s : NotifState) : List Notification × NotifState :=
  let fromA := lowerStr fromAgent
  let explicit := commentExplicit fromA content allAgents
  let implicit := commentImplicit taskId fromA explicit s
  let targets := explicit.map (fun a => (a, NotifType.mention)) ++
    implicit.map (fun a => (a, NotifType.reply))
  let p := createNotifs (some taskId) fromA content targets s
  let s1 := subscribe taskId fromA SubReason.commented p.2
  let s2 := explicit.foldl (fun st a => subscribe taskId a SubReason.mentioned st) s1
  (p.1, s2)

/-- Modelled from the spec: `notifyAssignment`. Each assignee other than
the assigner gets an `assignment` notification and is subscribed with
reason `assigned`; the assigner gets nothing. -/
def notifyAssignment (taskId : String) (assignees : List String) (assignedBy : String)
    (s : NotifState) : List Notification × NotifState :=
  let byA := lowerStr assignedBy
  let targets := (assignees.map lowerStr).filter (fun a => a != byA)
  let p := createNotifs (some taskId) byA ("Assigned to task " ++ taskId)
    (targets.map (fun a => (a, NotifType.assignment))) s
  let s1 := targets.foldl (fun st a => subscribe taskId a SubReason.assigned st) p.2
  (p.1, s1)

/-- Modelled from the spec: backward-compatible `createNotification`,
with both `fromAgent` and `targetAgent` set to the sentinel `"system"`,
and `message` stored as `content` (the title is not stored separately). -/
def createNotification (ty : NotifType) (_title message : String) (taskId : Option String)
    (s : NotifState) : Notification × NotifState :=
  let n : Notification := ⟨s.nextId, ty, taskId, "system", "system", message, s.now, false, none⟩
  (n, { s with notifications := s.notifications ++ [n], nextId := s.nextId + 1 })

structure NotifQuery where
  agent : String
  undelivered : Bool
  taskId : Option String
  limit : Option Nat
deriving Repr

def matchesQuery (q : NotifQuery) (n : Notification) : Bool :=
  n.targetAgent == q.agent &&
  (!q.undelivered || !n.delivered) &&
  (match q.taskId with
   | some t => n.taskId == some t
   | none => true)

def insertDesc (n : Notification) : List Notification → List Notification
  | [] => [n]
  | m :: ms => if n.createdAt ≤ m.createdAt then m :: insertDesc n ms else n :: m :: ms

def sortDesc : List Notification → List Notification
  | [] => []
  | n :: ns => insertDesc n (sortDesc ns)

/-- Modelled from the spec: `getNotifications({agent, undelivered?, taskId?,
limit?})` — conjunctive filters, newest-first sort by `createdAt`, then the
optional limit truncation. -/
def getNotifications (q : NotifQuery) (s : NotifState) : List Notification :=
  let sorted := sortDesc (s.notifications.filter (matchesQuery q))
  match q.limit with
  | some l => sorted.take l
  | none => sorted

/-- Modelled from the spec: `markDelivered(notificationId)` — sets
`delivered` and `deliveredAt` once (set-once semantics), returns whether a
notification with that id exists. -/
def markDelivered (id : Nat) (s : NotifState) : Bool × NotifState :=
  if s.notifications.any (fun n => n.id == id) then
    (true, { s with notifications := s.notifications.map fun n =>
      if n.id == id && !n.delivered then
        { n with delivered := true, deliveredAt := some s.now } else n })
  else (false, s)

/-- Modelled from the spec: `markAllDelivered(agent)` — marks every
undelivered notification for `agent` delivered and returns the count. -/
def markAllDelivered (agent : String) (s : NotifState) : Nat × NotifState :=
  let pending := s.notifications.filter (fun n => n.targetAgent == agent && !n.delivered)
  (pending.length, { s with notifications := s.notifications.map fun n =>
    if n.targetAgent == agent && !n.delivered then
      { n with delivered := true, deliveredAt := some s.now } else n })

inductive NotifOp
  | comment (taskId fromAgent content : String) (allAgents : Option (List String))
  | assign (taskId : String) (assignees : List String) (assignedBy : String)
  | create (ty : NotifType) (title message : String) (taskId : Option String)
  | sub (taskId agent : String) (reason : SubReason)
  | deliver (id : Nat)
  | deliverAll (agent : String)

def bump (s : NotifState) : NotifState :=
  { s with now := s.now + 1 }

/-- One engine operation applied to the state (its returned value dropped);
used to quantify over every later history of the engine. -/
def applyOp : NotifOp → NotifState → NotifState
  | .comment t f c aa, s => (processComment t f c aa (bump s)).2
  | .assign t as b, s => (notifyAssignment t as b (bump s)).2
  | .create ty ti m t, s => (createNotification ty ti m t (bump s)).2
  | .sub t a r, s => subscribe t a r (bump s)
  | .deliver id, s => (markDelivered id (bump s)).2
  | .deliverAll a, s => (markAllDelivered a (bump s)).2

def applyOps (ops : List NotifOp) (s : NotifState) : NotifState :=
  ops.foldl (fun st op => applyOp op st) s

/-- Invariant: every stored notification id is below the id counter. -/
def IdsBounded (s : NotifState) : Prop :=
  ∀ n ∈ s.notifications, n.id < s.nextId

/-- Invariant: the composite key `(taskId, agent)` is unique across the
Subscription Ledger. -/
def SubsUnique (s : NotifState) : Prop :=
  (s.subscriptions.map fun sub => (sub.taskId, sub.agent)).Nodup

/-- Every notification carrying the given id is marked delivered. -/
def DeliveredById (s : NotifState) (id : Nat) : Prop :=
  ∀ n ∈ s.notifications, n.id = id → n.delivered = true

inductive AgentStatus
  | online | busy | idle | offline
deriving DecidableEq, Repr

structure Capability where
  name : String
deriving DecidableEq, Repr

structure RegisteredAgent where
  id : String
  name : String
  model : Option String
  provider : Option String
  capabilities : List Capability
  status : AgentStatus
  currentTaskId : Option String
  currentTaskTitle : Option String
  metadata : List (String × String)
  registeredAt : Nat
  lastHeartbeat : Nat
deriving DecidableEq, Repr

structure RegisterInput where
  id : String
  name : String
  model : Option String
  provider : Option String
  capabilities : Option (List Capability)
  metadata : Option (List (String × String))
deriving DecidableEq, Repr

structure RegistryState where
  agents : List RegisteredAgent
  now : Nat
deriving DecidableEq, Repr

def initRegistry : RegistryState := ⟨[], 0⟩

/-- Modelled from the spec: registry `register(input)` — upsert by id. A new
id gets `status=online`, `registeredAt=lastHeartbeat=now`; an existing id has
every field present in the input updated (metadata replaced, not merged),
`registeredAt` preserved, `status` reset to online, `lastHeartbeat` to now.
The registry implementation is absent from the provided sources; only its
unit and route tests are. -/
def register (inp : RegisterInput) (s : RegistryState) : RegisteredAgent × RegistryState :=
  match s.agents.find? (fun a => a.id == inp.id) with
  | none =>
    let a : RegisteredAgent :=
      ⟨inp.id, inp.name, inp.model, inp.provider, inp.capabilities.getD [],
        AgentStatus.online, none, none, inp.metadata.getD [], s.now, s.now⟩
    (a, ⟨s.agents ++ [a], s.now⟩)
  | some old =>
    let a : RegisteredAgent := { old with
      name := inp.name
      model := match inp.model with
        | some m => some m
        | none => old.model
      provider := match inp.provider with
        | some p => some p
        | none => old.provider
      capabilities := inp.capabilities.getD old.capabilities
      metadata := inp.metadata.getD old.metadata
      status := AgentStatus.online
      lastHeartbeat := s.now }
    (a, ⟨s.agents.map (fun b => if b.id == inp.id then a else b), s.now⟩)

structure HeartbeatInput where
  status : Option AgentStatus
  currentTaskId : Option String
  currentTaskTitle : Option String
  metadata : Option (List (String × String))
deriving DecidableEq, Repr

/-- Modelled from the spec: key-by-key metadata merge on heartbeat — keys in
the payload override, untouched keys persist. -/
def mergeMeta (old new : List (String × String)) : List (String × String) :=
  old.filter (fun kv => !(new.any (fun kv2 => kv2.1 == kv.1))) ++ new

def lookupMeta (m : List (String × String)) (k : String) : Option String :=
  (m.find? (fun kv => kv.1 == k)).map Prod.snd

/-- Modelled from the spec: registry `heartbeat(id, payload)` — not-found
for an unregistered id; otherwise updates `lastHeartbeat`, applies the
status, clears both task fields when idle or when empty-string task fields
are passed, and merges the metadata key-by-key. -/
def heartbeat (id : String) (hb : HeartbeatInput) (s : RegistryState) :
    Option RegisteredAgent × RegistryState :=
  match s.agents.find? (fun a => a.id == id) with
  | none => (none, s)
  | some old =>
    let clearTask := hb.status == some AgentStatus.idle ||
      hb.currentTaskId == some "" || hb.currentTaskTitle == some ""
    let a : RegisteredAgent := { old with
      status := hb.status.getD old.status
      currentTaskId := if clearTask then none else
        (match hb.currentTaskId with
         | some t => some t
         | none => old.currentTaskId)
      currentTaskTitle := if clearTask then none else
        (match hb.currentTaskTitle with
         | some t => some t
         | none => old.currentTaskTitle)
      metadata := match hb.metadata with
        | some m => mergeMeta old.metadata m
        | none => old.metadata
      lastHeartbeat := s.now }
    (some a, ⟨s.agents.map (fun b => if b.id == id then a else b), s.now⟩)

def capMatch (cap : String) (a : RegisteredAgent) : Bool :=
  a.capabilities.any (fun c => lowerStr c.name == lowerStr cap)

def list (status : Option AgentStatus) (cap : Option String) (s : RegistryState) :
    List RegisteredAgent :=
  (s.agents.filter (fun a => match status with
    | some st => a.status == st
    | none => true)).filter (fun a => match cap with
    | some c => capMatch c a
    | none => true)

def get (id : String) (s : RegistryState) : Option RegisteredAgent :=
  s.agents.find? (fun a => a.id == id)

def findByCapability (cap : String) (s : RegistryState) : List RegisteredAgent :=
  s.agents.filter (fun a => capMatch cap a && !(a.status == AgentStatus.offline))

def charListLe : List Char → List Char → Bool
  | [], _ => true
  | _ :: _, [] => false
  | c :: cs, d :: ds =>
    if c.toNat < d.toNat then true
    else if d.toNat < c.toNat then false
    else charListLe cs ds

def strLe (a b : String) : Bool :=
  charListLe a.data b.data

def insertStr (x : String) : List String → List String
  | [] => [x]
  | y :: ys => if strLe x y then x :: y :: ys else y :: insertStr x ys

def sortStrs : List String → List String
  | [] => []
  | x :: xs => insertStr x (sortStrs xs)

structure RegistryStats where
  total : Nat
  online : Nat
  busy : Nat
  idle : Nat
  offline : Nat
  capabilities : List String
deriving DecidableEq, Repr

/-- Modelled from the spec: registry `stats()` — total plus one bucket per
status and the sorted set of distinct capability names. -/
def stats (s : RegistryState) : RegistryStats :=
  ⟨s.agents.length,
    (s.agents.filter (fun a => a.status == AgentStatus.online)).length,
    (s.agents.filter (fun a => a.status == AgentStatus.busy)).length,
    (s.agents.filter (fun a => a.status == AgentStatus.idle)).length,
    (s.agents.filter (fun a => a.status == AgentStatus.offline)).length,
    sortStrs (insertDedup [] (s.agents.flatMap (fun a => a.capabilities.map Capability.name)))⟩

def deregister (id : String) (s : RegistryState) : Bool × RegistryState :=
  if s.agents.any (fun a => a.id == id) then
    (true, ⟨s.agents.filter (fun a => !(a.id == id)), s.now⟩)
  else (false, s)

structure ProcessBody where
  taskId : Option String
  fromAgent : Option String
  content : Option String
  allAgents : Option (List String)
deriving DecidableEq, Repr

/-- Modelled from the spec: `POST /notifications/process`. The route layer
is absent from the provided sources; per the spec, a validation failure on
missing `fromAgent`/`content` surfaces as a server error (500) from the
shared validation layer, and the route test asserts exactly that. -/
def processRoute (body : ProcessBody) (s : NotifState) : Nat × NotifState :=
  match body.taskId, body.fromAgent, body.content with
  | some t, some f, some c => (201, (processComment t f c body.allAgents s).2)
  | _, _, _ => (500, s)



theorem parseMentions_example_single : parseMentions "Hey @alice, can you review this?" = ["alice"] := by decide

theorem parseMentions_example_multiple : parseMentions "@alice @bob please check this" = ["alice", "bob"] := by decide

theorem parseMentions_example_all : parseMentions "@all this is important" = ["all"] := by decide

theorem parseMentions_example_dedup : parseMentions "@alice @bob @alice check this" = ["alice", "bob"] := by decide

theorem parseMentions_example_hyphen_underscore : parseMentions "@claude-main @gpt_4 hello" = ["claude-main", "gpt_4"] := by decide

theorem parseMentions_example_none : parseMentions "No mentions here" = [] := by decide

theorem parseMentions_example_lowercase : parseMentions "@Alice @BOB" = ["alice", "bob"] := by decide

theorem parseMentions_example_empty : parseMentions "" = [] := by decide

theorem parseMentions_example_midword : parseMentions "a@b @@x" = ["b", "x"] := by decide

theorem processComment_example_single_mention :
    ((processComment "TASK-1" "alice" "Hey @bob, check this out" none initNotifState).1.map
      (fun n => (n.targetAgent, n.type))) = [("bob", NotifType.mention)] := by decide

theorem processComment_example_subscriptions :
    ((processComment "TASK-1" "alice" "Hey @bob, check this out" none initNotifState).2.subscriptions.map
      (fun sub => (sub.taskId, sub.agent, sub.reason))) =
    [("TASK-1", "alice", SubReason.commented), ("TASK-1", "bob", SubReason.mentioned)] := by decide

theorem processComment_example_all_expansion :
    ((processComment "TASK-1" "alice" "@all please review" (some ["alice", "bob", "charlie"])
      initNotifState).1.map (fun n => (n.targetAgent, n.type))) =
    [("bob", NotifType.mention), ("charlie", NotifType.mention)] := by decide

theorem processComment_example_reply :
    ((processComment "TASK-1" "alice" "Making progress" none
      (subscribe "TASK-1" "bob" SubReason.manual initNotifState)).1.map
      (fun n => (n.targetAgent, n.type))) = [("bob", NotifType.reply)] := by decide

theorem processComment_example_self_mention :
    ((processComment "TASK-1" "alice" "I am @alice working on this" none initNotifState).1) = [] := by
  decide

theorem notifyAssignment_example_no_self :
    ((notifyAssignment "TASK-1" ["alice", "bob"] "alice" initNotifState).1.map
      (fun n => (n.targetAgent, n.type))) = [("bob", NotifType.assignment)] := by decide

theorem register_example_status_online :
    (register ⟨"test-agent", "Test Agent", some "claude-sonnet-4", some "anthropic",
      some [⟨"code"⟩, ⟨"test"⟩], none⟩ initRegistry).1.status = AgentStatus.online := by decide

theorem register_example_preserves_registeredAt :
    ((register ⟨"x", "y", none, none, some [⟨"code"⟩], none⟩
      (register ⟨"x", "Test Agent", none, none, some [⟨"code"⟩], none⟩
        ⟨[], 5⟩).2).1.registeredAt) = 5 := by decide

theorem register_example_metadata_replaced :
    ((register ⟨"x", "y", none, none, none, some [("session", "def")]⟩
      (register ⟨"x", "n", none, none, none, some [("host", "mac-mini"), ("session", "abc")]⟩
        initRegistry).2).1.metadata) = [("session", "def")] := by decide

theorem heartbeat_example_idle_clears_task :
    ((heartbeat "x" ⟨some AgentStatus.idle, some "", some "", none⟩
      (heartbeat "x" ⟨some AgentStatus.busy, some "TASK-1", none, none⟩
        (register ⟨"x", "n", none, none, none, none⟩ initRegistry).2).2).1.map
      (fun a => (a.currentTaskId, a.currentTaskTitle, a.status))) =
    some (none, none, AgentStatus.idle) := by decide

theorem heartbeat_example_metadata_merged :
    ((heartbeat "x" ⟨none, none, none, some [("session", "abc")]⟩
      (register ⟨"x", "n", none, none, none, some [("host", "mac-mini")]⟩
        initRegistry).2).1.map
      (fun a => (lookupMeta a.metadata "host", lookupMeta a.metadata "session"))) =
    some (some "mac-mini", some "abc") := by decide

theorem stats_example_counts :
    (stats (heartbeat "a1" ⟨some AgentStatus.busy, none, none, none⟩
      (register ⟨"a2", "n2", none, none, some [⟨"deploy"⟩], none⟩
        (register ⟨"a1", "n1", none, none, some [⟨"code"⟩], none⟩ initRegistry).2).2).2) =
    ⟨2, 1, 1, 0, 0, ["code", "deploy"]⟩ := by decide



theorem toNat_ofNat_valid (n : Nat) (h : n.isValidChar) : (Char.ofNat n).toNat = n := by
  simp [Char.ofNat, h, Char.ofNatAux, Char.toNat]
  rfl

theorem lowerChar_eq_of_upper {c : Char} (h : 65 ≤ c.toNat ∧ c.toNat ≤ 90) :
    lowerChar c = Char.ofNat (c.toNat + 32) := by
  unfold lowerChar; exact if_pos h

theorem lowerChar_eq_of_not_upper {c : Char} (h : ¬(65 ≤ c.toNat ∧ c.toNat ≤ 90)) :
    lowerChar c = c := by
  unfold lowerChar; exact if_neg h

theorem lowerChar_idem (c : Char) : lowerChar (lowerChar c) = lowerChar c := by
  by_cases h : 65 ≤ c.toNat ∧ c.toNat ≤ 90
  · have hv : (c.toNat + 32).isValidChar := Or.inl (by omega)
    have h2 : (lowerChar c).toNat = c.toNat + 32 := by
      rw [lowerChar_eq_of_upper h, toNat_ofNat_valid _ hv]
    exact lowerChar_eq_of_not_upper (by omega)
  · rw [lowerChar_eq_of_not_upper h, lowerChar_eq_of_not_upper h]

theorem lowerStr_idem (s : String) : lowerStr (lowerStr s) = lowerStr s := by
  simp [lowerStr, List.map_map, Function.comp_def, lowerChar_idem]

theorem insertDedup_eq_filter (seen : List String) (l : List String) :
    insertDedup seen l = (keepFirsts l).filter (· ∉ seen) := by
  induction l generalizing seen with
  | nil => simp [insertDedup, keepFirsts]
  | cons x xs ih =>
    by_cases hx : x ∈ seen
    · rw [insertDedup, if_pos hx, ih, keepFirsts, List.filter_cons]
      simp only [hx]
      rw [if_neg (by simp), List.filter_filter]
      apply List.filter_congr
      intro a _
      by_cases ha : a ∈ seen
      · simp [ha]
      · have hne : a ≠ x := fun he => ha (he ▸ hx)
        simp [ha, hne]
    · rw [insertDedup, if_neg hx, ih, keepFirsts, List.filter_cons]
      rw [if_pos (by simpa using hx)]
      congr 1
      rw [List.filter_filter]
      apply List.filter_congr
      intro a _
      by_cases hax : a = x
      · subst hax; simp
      · simp [hax, List.mem_cons]

theorem keepFirsts_nodup (l : List String) : (keepFirsts l).Nodup := by
  induction l with
  | nil => simp [keepFirsts]
  | cons x xs ih =>
    rw [keepFirsts]
    refine List.Nodup.cons ?_ (List.Nodup.filter _ ih)
    intro hmem
    have := List.of_mem_filter hmem
    simp at this

theorem keepFirsts_sublist (l : List String) : (keepFirsts l).Sublist l := by
  induction l with
  | nil => simp [keepFirsts]
  | cons x xs ih =>
    rw [keepFirsts]
    exact List.Sublist.cons₂ x ((List.filter_sublist _).trans ih)

theorem mem_keepFirsts (a : String) (l : List String) : a ∈ keepFirsts l ↔ a ∈ l := by
  induction l with
  | nil => simp [keepFirsts]
  | cons x xs ih =>
    rw [keepFirsts]
    by_cases hax : a = x
    · subst hax; simp
    · simp only [List.mem_cons, hax, false_or]
      rw [← ih]
      constructor
      · intro h
        exact (List.mem_filter.mp h).1
      · intro h
        exact List.mem_filter.mpr ⟨h, by simp [hax]⟩

theorem parseMentions_eq_keepFirsts (text : String) :
    parseMentions text = keepFirsts ((scanMentions text.data).map lowerStr) := by
  rw [parseMentions, insertDedup_eq_filter]
  apply List.filter_eq_self.mpr
  intro a _
  simp

theorem scanAux_none_of_no_at (l : List Char) (h : '@' ∉ l) : scanAux l none = [] := by
  induction l with
  | nil => rfl
  | cons c rest ih =>
    rw [scanAux]
    have hc : ¬(c = '@') := fun he => h (he ▸ List.mem_cons_self c rest)
    rw [if_neg hc]
    exact ih (fun hm => h (List.mem_cons_of_mem c hm))

theorem parseMentions_of_no_at (text : String) (h : '@' ∉ text.data) :
    parseMentions text = [] := by
  rw [parseMentions, scanMentions, scanAux_none_of_no_at _ h]
  rfl

theorem mem_insertDedup (a : String) (seen l : List String) :
    a ∈ insertDedup seen l ↔ a ∈ l ∧ a ∉ seen := by
  rw [insertDedup_eq_filter]
  simp [List.mem_filter, mem_keepFirsts]

theorem createNotifs_notifications (tid : Option String) (f c : String)
    (ts : List (String × NotifType)) (s : NotifState) :
    (createNotifs tid f c ts s).2.notifications =
      s.notifications ++ (createNotifs tid f c ts s).1 := by
  induction ts generalizing s with
  | nil => simp [createNotifs]
  | cons t rest ih =>
    obtain ⟨a, ty⟩ := t
    simp only [createNotifs]
    rw [ih]
    simp

theorem createNotifs_pairs (tid : Option String) (f c : String)
    (ts : List (String × NotifType)) (s : NotifState) :
    (createNotifs tid f c ts s).1.map (fun n => (n.targetAgent, n.type)) = ts := by
  induction ts generalizing s with
  | nil => simp [createNotifs]
  | cons t rest ih =>
    obtain ⟨a, ty⟩ := t
    simp only [createNotifs, List.map_cons]
    rw [ih]

theorem createNotifs_subscriptions (tid : Option String) (f c : String)
    (ts : List (String × NotifType)) (s : NotifState) :
    (createNotifs tid f c ts s).2.subscriptions = s.subscriptions := by
  induction ts generalizing s with
  | nil => simp [createNotifs]
  | cons t rest ih =>
    obtain ⟨a, ty⟩ := t
    simp only [createNotifs]
    rw [ih]

theorem createNotifs_now (tid : Option String) (f c : String)
    (ts : List (String × NotifType)) (s : NotifState) :
    (createNotifs tid f c ts s).2.now = s.now := by
  induction ts generalizing s with
  | nil => simp [createNotifs]
  | cons t rest ih =>
    obtain ⟨a, ty⟩ := t
    simp only [createNotifs]
    rw [ih]

theorem createNotifs_nextId (tid : Option String) (f c : String)
    (ts : List (String × NotifType)) (s : NotifState) :
    (createNotifs tid f c ts s).2.nextId = s.nextId + ts.length := by
  induction ts generalizing s with
  | nil => simp [createNotifs]
  | cons t rest ih =>
    obtain ⟨a, ty⟩ := t
    simp only [createNotifs]
    rw [ih]
    simp
    omega

theorem createNotifs_mem (tid : Option String) (f c : String)
    (ts : List (String × NotifType)) (s : NotifState) (n : Notification)
    (hn : n ∈ (createNotifs tid f c ts s).1) :
    n.delivered = false ∧ n.fromAgent = f ∧ n.taskId = tid ∧ n.content = c ∧
      n.createdAt = s.now ∧ s.nextId ≤ n.id ∧ n.id < s.nextId + ts.length := by
  induction ts generalizing s with
  | nil => simp [createNotifs] at hn
  | cons t rest ih =>
    obtain ⟨a, ty⟩ := t
    simp only [createNotifs, List.mem_cons] at hn
    rcases hn with h | h
    · subst h
      refine ⟨rfl, rfl, rfl, rfl, rfl, Nat.le_refl _, ?_⟩
      simp
    · have := ih _ h
      simp only at this
      refine ⟨this.1, this.2.1, this.2.2.1, this.2.2.2.1, this.2.2.2.2.1,
        Nat.le_of_succ_le this.2.2.2.2.2.1, ?_⟩
      have h2 := this.2.2.2.2.2.2
      simp only [List.length_cons]
      omega

theorem subscribe_notifications (t a : String) (r : SubReason) (s : NotifState) :
    (subscribe t a r s).notifications = s.notifications := by
  unfold subscribe
  dsimp only
  split <;> rfl

theorem subscribe_nextId (t a : String) (r : SubReason) (s : NotifState) :
    (subscribe t a r s).nextId = s.nextId := by
  unfold subscribe
  dsimp only
  split <;> rfl

theorem subscribe_now (t a : String) (r : SubReason) (s : NotifState) :
    (subscribe t a r s).now = s.now := by
  unfold subscribe
  dsimp only
  split <;> rfl

theorem foldl_subscribe_notifications (t : String) (r : SubReason) (l : List String)
    (s : NotifState) :
    (l.foldl (fun st a => subscribe t a r st) s).notifications = s.notifications := by
  induction l generalizing s with
  | nil => rfl
  | cons x xs ih => rw [List.foldl_cons, ih, subscribe_notifications]

theorem foldl_subscribe_nextId (t : String) (r : SubReason) (l : List String)
    (s : NotifState) :
    (l.foldl (fun st a => subscribe t a r st) s).nextId = s.nextId := by
  induction l generalizing s with
  | nil => rfl
  | cons x xs ih => rw [List.foldl_cons, ih, subscribe_nextId]

theorem subscribe_subsUnique (t a : String) (r : SubReason) (s : NotifState)
    (h : SubsUnique s) : SubsUnique (subscribe t a r s) := by
  unfold subscribe
  dsimp only
  split
  · exact h
  · rename_i hany
    unfold SubsUnique at h ⊢
    rw [List.map_append, List.map_cons, List.map_nil]
    apply List.Nodup.append h (List.nodup_singleton _)
    intro p hp hq
    simp only [List.mem_singleton] at hq
    subst hq
    rcases List.mem_map.mp hp with ⟨sub, hsub, heq⟩
    apply hany
    rw [List.any_eq_true]
    refine ⟨sub, hsub, ?_⟩
    have h1 : sub.taskId = t := congrArg Prod.fst heq
    have h2 : sub.agent = lowerStr a := congrArg Prod.snd heq
    simp [h1, h2]

theorem foldl_subscribe_subsUnique (t : String) (r : SubReason) (l : List String)
    (s : NotifState) (h : SubsUnique s) :
    SubsUnique (l.foldl (fun st a => subscribe t a r st) s) := by
  induction l generalizing s with
  | nil => exact h
  | cons x xs ih => rw [List.foldl_cons]; exact ih _ (subscribe_subsUnique _ _ _ _ h)

theorem processComment_notifications (t f c : String) (aa : Option (List String))
    (s : NotifState) :
    (processComment t f c aa s).2.notifications =
      s.notifications ++ (processComment t f c aa s).1 := by
  unfold processComment
  dsimp only
  rw [foldl_subscribe_notifications, subscribe_notifications, createNotifs_notifications]

theorem processComment_nextId (t f c : String) (aa : Option (List String)) (s : NotifState) :
    s.nextId ≤ (processComment t f c aa s).2.nextId := by
  unfold processComment
  dsimp only
  rw [foldl_subscribe_nextId, subscribe_nextId, createNotifs_nextId]
  omega

theorem notifyAssignment_notifications (t : String) (as : List String) (b : String)
    (s : NotifState) :
    (notifyAssignment t as b s).2.notifications =
      s.notifications ++ (notifyAssignment t as b s).1 := by
  unfold notifyAssignment
  dsimp only
  rw [foldl_subscribe_notifications, createNotifs_notifications]

theorem notifyAssignment_nextId (t : String) (as : List String) (b : String)
    (s : NotifState) :
    s.nextId ≤ (notifyAssignment t as b s).2.nextId := by
  unfold notifyAssignment
  dsimp only
  rw [foldl_subscribe_nextId, createNotifs_nextId]
  omega

theorem markDelivered_subscriptions (id : Nat) (s : NotifState) :
    (markDelivered id s).2.subscriptions = s.subscriptions := by
  unfold markDelivered
  split <;> rfl

theorem markAllDelivered_subscriptions (a : String) (s : NotifState) :
    (markAllDelivered a s).2.subscriptions = s.subscriptions := rfl

theorem markDelivered_nextId (id : Nat) (s : NotifState) :
    (markDelivered id s).2.nextId = s.nextId := by
  unfold markDelivered
  split <;> rfl

theorem markAllDelivered_nextId (a : String) (s : NotifState) :
    (markAllDelivered a s).2.nextId = s.nextId := rfl

theorem subscribe_subscriptions_sub (t a : String) (r : SubReason) (s : NotifState)
    (sub : Subscription) (h : sub ∈ (subscribe t a r s).subscriptions) :
    sub ∈ s.subscriptions ∨ sub = ⟨t, lowerStr a, r, s.now⟩ := by
  unfold subscribe at h
  dsimp only at h
  split at h
  · exact Or.inl h
  · rcases List.mem_append.mp h with h1 | h1
    · exact Or.inl h1
    · simp only [List.mem_singleton] at h1
      exact Or.inr h1

theorem bump_notifications (s : NotifState) : (bump s).notifications = s.notifications := rfl

theorem bump_subscriptions (s : NotifState) : (bump s).subscriptions = s.subscriptions := rfl

theorem bump_nextId (s : NotifState) : (bump s).nextId = s.nextId := rfl

theorem applyOp_subsUnique (op : NotifOp) (s : NotifState) (h : SubsUnique s) :
    SubsUnique (applyOp op s) := by
  have hb : SubsUnique (bump s) := h
  cases op with
  | comment t f c aa =>
    show SubsUnique (processComment t f c aa (bump s)).2
    unfold processComment
    dsimp only
    apply foldl_subscribe_subsUnique
    apply subscribe_subsUnique
    unfold SubsUnique
    rw [createNotifs_subscriptions]
    exact hb
  | assign t as b =>
    show SubsUnique (notifyAssignment t as b (bump s)).2
    unfold notifyAssignment
    dsimp only
    apply foldl_subscribe_subsUnique
    unfold SubsUnique
    rw [createNotifs_subscriptions]
    exact hb
  | create ty ti m t => exact hb
  | sub t a r => exact subscribe_subsUnique _ _ _ _ hb
  | deliver id =>
    show SubsUnique (markDelivered id (bump s)).2
    unfold SubsUnique
    rw [markDelivered_subscriptions]
    exact hb
  | deliverAll a =>
    show SubsUnique (markAllDelivered a (bump s)).2
    unfold SubsUnique
    rw [markAllDelivered_subscriptions]
    exact hb

theorem applyOp_nextId_le (op : NotifOp) (s : NotifState) :
    s.nextId ≤ (applyOp op s).nextId := by
  cases op with
  | comment t f c aa => exact processComment_nextId t f c aa (bump s)
  | assign t as b => exact notifyAssignment_nextId t as b (bump s)
  | create ty ti m t => exact Nat.le_succ _
  | sub t a r => exact Nat.le_of_eq (subscribe_nextId t a r (bump s)).symm
  | deliver id => exact Nat.le_of_eq (markDelivered_nextId id (bump s)).symm
  | deliverAll a => exact Nat.le_of_eq (markAllDelivered_nextId a (bump s)).symm

theorem markDelivered_notifications_mem (id : Nat) (s : NotifState) (n' : Notification)
    (h : n' ∈ (markDelivered id s).2.notifications) :
    (∃ n ∈ s.notifications, n'.id = n.id ∧ (n.delivered = true → n' = n)) := by
  unfold markDelivered at h
  split at h
  · dsimp only at h
    rcases List.mem_map.mp h with ⟨n, hn, heq⟩
    by_cases hc : (n.id == id && !n.delivered) = true
    · rw [if_pos hc] at heq
      refine ⟨n, hn, ?_, ?_⟩
      · rw [← heq]
      · intro hd
        simp [hd] at hc
    · rw [if_neg hc] at heq
      exact ⟨n, hn, by rw [heq], fun _ => heq.symm ▸ rfl⟩
  · exact ⟨n', h, rfl, fun _ => rfl⟩

theorem markAllDelivered_notifications_mem (a : String) (s : NotifState) (n' : Notification)
    (h : n' ∈ (markAllDelivered a s).2.notifications) :
    (∃ n ∈ s.notifications, n'.id = n.id ∧ (n.delivered = true → n' = n ∨ n'.delivered = true)) := by
  unfold markAllDelivered at h
  dsimp only at h
  rcases List.mem_map.mp h with ⟨n, hn, heq⟩
  by_cases hc : (n.targetAgent == a && !n.delivered) = true
  · rw [if_pos hc] at heq
    refine ⟨n, hn, by rw [← heq], fun hd => ?_⟩
    simp [hd] at hc
  · rw [if_neg hc] at heq
    exact ⟨n, hn, by rw [heq], fun _ => Or.inl heq.symm⟩

theorem processComment_idsBounded (t f c : String) (aa : Option (List String))
    (s : NotifState) (h : IdsBounded s) : IdsBounded (processComment t f c aa s).2 := by
  unfold processComment
  dsimp only
  intro n hn
  rw [foldl_subscribe_notifications, subscribe_notifications, createNotifs_notifications]
    at hn
  rw [foldl_subscribe_nextId, subscribe_nextId, createNotifs_nextId]
  rcases List.mem_append.mp hn with h1 | h1
  · exact Nat.lt_of_lt_of_le (h n h1) (Nat.le_add_right _ _)
  · exact (createNotifs_mem _ _ _ _ _ _ h1).2.2.2.2.2.2

theorem notifyAssignment_idsBounded (t : String) (as : List String) (b : String)
    (s : NotifState) (h : IdsBounded s) : IdsBounded (notifyAssignment t as b s).2 := by
  unfold notifyAssignment
  dsimp only
  intro n hn
  rw [foldl_subscribe_notifications, createNotifs_notifications] at hn
  rw [foldl_subscribe_nextId, createNotifs_nextId]
  rcases List.mem_append.mp hn with h1 | h1
  · exact Nat.lt_of_lt_of_le (h n h1) (Nat.le_add_right _ _)
  · exact (createNotifs_mem _ _ _ _ _ _ h1).2.2.2.2.2.2

theorem applyOp_idsBounded (op : NotifOp) (s : NotifState) (h : IdsBounded s) :
    IdsBounded (applyOp op s) := by
  have hb : IdsBounded (bump s) := h
  cases op with
  | comment t f c aa => exact processComment_idsBounded t f c aa (bump s) hb
  | assign t as b => exact notifyAssignment_idsBounded t as b (bump s) hb
  | create ty ti m t =>
    intro n hn
    simp only [applyOp, createNotification] at hn ⊢
    rcases List.mem_append.mp hn with h1 | h1
    · exact Nat.lt_succ_of_lt (hb n h1)
    · simp only [List.mem_singleton] at h1
      subst h1
      exact Nat.lt_succ_self _
  | sub t a r =>
    intro n hn
    simp only [applyOp] at hn ⊢
    rw [subscribe_notifications] at hn
    rw [subscribe_nextId]
    exact hb n hn
  | deliver id =>
    intro n hn
    simp only [applyOp] at hn ⊢
    rw [markDelivered_nextId]
    rcases markDelivered_notifications_mem id (bump s) n hn with ⟨m, hm, hid, _⟩
    rw [hid]
    exact hb m hm
  | deliverAll a =>
    intro n hn
    simp only [applyOp] at hn ⊢
    rw [markAllDelivered_nextId]
    rcases markAllDelivered_notifications_mem a (bump s) n hn with ⟨m, hm, hid, _⟩
    rw [hid]
    exact hb m hm

theorem applyOp_deliveredById (op : NotifOp) (s : NotifState) (id : Nat)
    (hid : id < s.nextId) (h : DeliveredById s id) : DeliveredById (applyOp op s) id := by
  have hb : DeliveredById (bump s) id := h
  cases op with
  | comment t f c aa =>
    intro n hn hnid
    simp only [applyOp] at hn
    unfold processComment at hn
    dsimp only at hn
    rw [foldl_subscribe_notifications, subscribe_notifications,
      createNotifs_notifications] at hn
    rcases List.mem_append.mp hn with h1 | h1
    · exact hb n h1 hnid
    · have := (createNotifs_mem _ _ _ _ _ _ h1).2.2.2.2.2.1
      rw [hnid] at this
      have hbn : (bump s).nextId = s.nextId := rfl
      omega
  | assign t as b =>
    intro n hn hnid
    simp only [applyOp] at hn
    unfold notifyAssignment at hn
    dsimp only at hn
    rw [foldl_subscribe_notifications, createNotifs_notifications] at hn
    rcases List.mem_append.mp hn with h1 | h1
    · exact hb n h1 hnid
    · have := (createNotifs_mem _ _ _ _ _ _ h1).2.2.2.2.2.1
      rw [hnid] at this
      have hbn : (bump s).nextId = s.nextId := rfl
      omega
  | create ty ti m t =>
    intro n hn hnid
    simp only [applyOp, createNotification] at hn
    rcases List.mem_append.mp hn with h1 | h1
    · exact hb n h1 hnid
    · simp only [List.mem_singleton] at h1
      subst h1
      simp only at hnid
      have hbn : (bump s).nextId = s.nextId := rfl
      omega
  | sub t a r =>
    intro n hn hnid
    simp only [applyOp] at hn
    rw [subscribe_notifications] at hn
    exact hb n hn hnid
  | deliver i =>
    intro n hn hnid
    simp only [applyOp] at hn
    rcases markDelivered_notifications_mem i (bump s) n hn with ⟨m, hm, hmid, himp⟩
    have hmdel : m.delivered = true := hb m hm (hmid ▸ hnid)
    rcases himp hmdel with rfl
    exact hmdel
  | deliverAll a =>
    intro n hn hnid
    simp only [applyOp] at hn
    rcases markAllDelivered_notifications_mem a (bump s) n hn with ⟨m, hm, hmid, himp⟩
    have hmdel : m.delivered = true := hb m hm (hmid ▸ hnid)
    rcases himp hmdel with rfl | hdel
    · exact hmdel
    · exact hdel

theorem applyOps_deliveredById (ops : List NotifOp) (s : NotifState) (id : Nat)
    (hid : id < s.nextId) (h : DeliveredById s id) :
    DeliveredById (applyOps ops s) id := by
  induction ops generalizing s with
  | nil => exact h
  | cons op rest ih =>
    rw [applyOps, List.foldl_cons]
    exact ih (applyOp op s)
      (Nat.lt_of_lt_of_le hid (applyOp_nextId_le op s))
      (applyOp_deliveredById op s id hid h)

theorem markDelivered_true_iff (id : Nat) (s : NotifState) :
    (markDelivered id s).1 = true ↔ ∃ n ∈ s.notifications, n.id = id := by
  unfold markDelivered
  split
  · rename_i hany
    simp only [true_iff]
    rcases List.any_eq_true.mp hany with ⟨n, hn, hbeq⟩
    exact ⟨n, hn, by simpa using hbeq⟩
  · rename_i hany
    simp only [Bool.false_eq_true, false_iff]
    rintro ⟨n, hn, hid⟩
    exact hany (List.any_eq_true.mpr ⟨n, hn, by simp [hid]⟩)

theorem markDelivered_deliveredById (id : Nat) (s : NotifState)
    (h : (markDelivered id s).1 = true) : DeliveredById (markDelivered id s).2 id := by
  unfold markDelivered at h ⊢
  split at h
  · rename_i hany
    rw [if_pos hany]
    intro n' hn' hid'
    dsimp only at hn'
    rcases List.mem_map.mp hn' with ⟨n, hn, heq⟩
    by_cases hc : (n.id == id && !n.delivered) = true
    · rw [if_pos hc] at heq
      rw [← heq]
    · rw [if_neg hc] at heq
      subst heq
      simp only [hid', beq_self_eq_true, Bool.true_and, Bool.not_eq_true'] at hc
      simpa using hc
  · exact absurd h (by simp)

theorem markDelivered_nextId_preserved (id : Nat) (s : NotifState)
    (hid : ∃ n ∈ s.notifications, n.id = id) (hb : IdsBounded s) :
    id < (markDelivered id s).2.nextId := by
  rw [markDelivered_nextId]
  rcases hid with ⟨n, hn, hnid⟩
  exact hnid ▸ hb n hn

theorem mem_insertDesc (n a : Notification) (l : List Notification) :
    a ∈ insertDesc n l ↔ a = n ∨ a ∈ l := by
  induction l with
  | nil => simp [insertDesc]
  | cons m ms ih =>
    rw [insertDesc]
    split
    all_goals simp only [List.mem_cons, ih]
    all_goals tauto

theorem mem_sortDesc (a : Notification) (l : List Notification) :
    a ∈ sortDesc l ↔ a ∈ l := by
  induction l with
  | nil => simp [sortDesc]
  | cons n ns ih =>
    rw [sortDesc, mem_insertDesc]
    simp [ih]

theorem getNotifications_mem (q : NotifQuery) (s : NotifState) (n : Notification)
    (h : n ∈ getNotifications q s) :
    n ∈ s.notifications ∧ matchesQuery q n = true := by
  unfold getNotifications at h
  dsimp only at h
  have hmem : n ∈ sortDesc (s.notifications.filter (matchesQuery q)) := by
    rcases hq : q.limit with _ | l
    · rwa [hq] at h
    · rw [hq] at h
      exact List.take_subset _ _ h
  rw [mem_sortDesc] at hmem
  exact ⟨List.mem_of_mem_filter hmem, List.of_mem_filter hmem⟩

theorem getNotifications_undelivered (q : NotifQuery) (s : NotifState) (n : Notification)
    (hq : q.undelivered = true) (h : n ∈ getNotifications q s) : n.delivered = false := by
  have := (getNotifications_mem q s n h).2
  unfold matchesQuery at this
  simp only [hq, Bool.not_true, Bool.false_or, Bool.and_eq_true] at this
  have h2 := this.1.2
  simpa using h2

theorem mem_explicitTargets_ne (fromA : String) (ms allA : List String) (a : String)
    (h : a ∈ explicitTargets fromA ms allA) : a ≠ fromA := by
  unfold explicitTargets at h
  rw [mem_insertDedup] at h
  rcases List.mem_flatMap.mp h.1 with ⟨m, _, ha⟩
  by_cases hall : m = "all"
  · rw [if_pos hall] at ha
    have := List.of_mem_filter ha
    simpa using this
  · rw [if_neg hall] at ha
    by_cases hself : m = fromA
    · rw [if_pos hself] at ha
      simp at ha
    · rw [if_neg hself] at ha
      simp only [List.mem_singleton] at ha
      exact ha ▸ hself

theorem mem_explicitTargets_of_all (fromA : String) (ms allA : List String) (a : String)
    (hall : "all" ∈ ms) (ha : a ∈ allA) (hne : a ≠ fromA) :
    a ∈ explicitTargets fromA ms allA := by
  unfold explicitTargets
  rw [mem_insertDedup]
  refine ⟨List.mem_flatMap.mpr ⟨"all", hall, ?_⟩, List.not_mem_nil a⟩
  rw [if_pos rfl]
  exact List.mem_filter.mpr ⟨ha, by simpa using hne⟩

theorem processComment_pairs (t f c : String) (aa : Option (List String)) (s : NotifState) :
    (processComment t f c aa s).1.map (fun n => (n.targetAgent, n.type)) =
      (commentExplicit (lowerStr f) c aa).map (fun a => (a, NotifType.mention)) ++
      (commentImplicit t (lowerStr f) (commentExplicit (lowerStr f) c aa) s).map
        (fun a => (a, NotifType.reply)) := by
  unfold processComment
  dsimp only
  rw [createNotifs_pairs]

theorem processComment_no_self_target (taskId fromAgent content : String)
    (aa : Option (List String)) (s : NotifState) :
    ∀ n ∈ (processComment taskId fromAgent content aa s).1,
      n.targetAgent ≠ lowerStr fromAgent := by
  intro n hn
  have hp : (n.targetAgent, n.type) ∈
      (processComment taskId fromAgent content aa s).1.map
        (fun n => (n.targetAgent, n.type)) :=
    List.mem_map.mpr ⟨n, hn, rfl⟩
  rw [processComment_pairs] at hp
  rcases List.mem_append.mp hp with h1 | h1
  · rcases List.mem_map.mp h1 with ⟨a, ha, heq⟩
    have h2 : a = n.targetAgent := congrArg Prod.fst heq
    rw [← h2]
    exact mem_explicitTargets_ne _ _ _ a ha
  · rcases List.mem_map.mp h1 with ⟨a, ha, heq⟩
    have h2 : a = n.targetAgent := congrArg Prod.fst heq
    rw [← h2]
    have := List.of_mem_filter ha
    simp only [Bool.and_eq_true, bne_iff_ne] at this
    exact this.2

theorem processComment_all_mention (taskId fromAgent content : String)
    (aa : Option (List String)) (s : NotifState)
    (hall : "all" ∈ parseMentions content) :
    ∀ a ∈ (aa.getD []).map lowerStr, a ≠ lowerStr fromAgent →
      ∃ n ∈ (processComment taskId fromAgent content aa s).1,
        n.targetAgent = a ∧ n.type = NotifType.mention := by
  intro a ha hne
  have hexp : a ∈ commentExplicit (lowerStr fromAgent) content aa :=
    mem_explicitTargets_of_all _ _ _ a hall ha hne
  have hp : (a, NotifType.mention) ∈
      (processComment taskId fromAgent content aa s).1.map
        (fun n => (n.targetAgent, n.type)) := by
    rw [processComment_pairs]
    exact List.mem_append_left _ (List.mem_map.mpr ⟨a, hexp, rfl⟩)
  rcases List.mem_map.mp hp with ⟨n, hn, heq⟩
  exact ⟨n, hn, congrArg Prod.fst heq, congrArg Prod.snd heq⟩

theorem filter_target_pairs (l : List Notification) (a : String) :
    (l.filter (fun n => n.targetAgent == a)).map (fun n => n.type) =
      ((l.map (fun n => (n.targetAgent, n.type))).filter (fun p => p.1 == a)).map Prod.snd := by
  induction l with
  | nil => rfl
  | cons n ns ih =>
    by_cases h : (n.targetAgent == a) = true
    · simp only [List.filter_cons, List.map_cons, h, if_true, List.map_cons]
      rw [ih]
    · simp only [List.filter_cons, List.map_cons, h, Bool.false_eq_true, if_false]
      rw [ih]

theorem subscription_agents_nodup (subs : List Subscription) (t : String)
    (h : (subs.map fun sub => (sub.taskId, sub.agent)).Nodup) :
    ((subs.filter (fun sub => sub.taskId == t)).map Subscription.agent).Nodup := by
  induction subs with
  | nil => simp
  | cons sub rest ih =>
    simp only [List.map_cons, List.nodup_cons] at h
    by_cases ht : (sub.taskId == t) = true
    · simp only [List.filter_cons, ht, if_true, List.map_cons]
      refine List.Nodup.cons ?_ (ih h.2)
      intro hmem
      rcases List.mem_map.mp hmem with ⟨sub2, hsub2, heq⟩
      have hsub2f := List.of_mem_filter hsub2
      have hsub2m := List.mem_of_mem_filter hsub2
      apply h.1
      refine List.mem_map.mpr ⟨sub2, hsub2m, ?_⟩
      have h1 : sub2.taskId = sub.taskId := by
        have e1 : sub.taskId = t := by simpa using ht
        have e2 : sub2.taskId = t := by simpa using hsub2f
        rw [e1, e2]
      rw [h1, heq]
    · simp only [List.filter_cons, ht, Bool.false_eq_true, if_false]
      exact ih h.2

theorem taskSubscribers_nodup (t : String) (s : NotifState) (h : SubsUnique s) :
    (taskSubscribers t s).Nodup := by
  unfold taskSubscribers
  exact subscription_agents_nodup s.subscriptions t h

theorem nodup_filter_beq (l : List String) (a : String) (hn : l.Nodup) (ha : a ∈ l) :
    l.filter (fun x => x == a) = [a] := by
  induction l with
  | nil => simp at ha
  | cons x xs ih =>
    rw [List.nodup_cons] at hn
    rcases List.mem_cons.mp ha with h1 | h1
    · subst h1
      simp only [List.filter_cons, beq_self_eq_true, if_true]
      have : xs.filter (fun x2 => x2 == a) = [] := by
        rw [List.filter_eq_nil_iff]
        intro b hb
        simp only [beq_iff_eq]
        intro hbx
        exact hn.1 (hbx ▸ hb)
      rw [this]
    · have hxa : ¬((x == a) = true) := by
        simp only [beq_iff_eq]
        intro hxa
        exact hn.1 (hxa ▸ h1)
      simp only [List.filter_cons, hxa, Bool.false_eq_true, if_false]
      exact ih hn.2 h1

/-- C3: an agent subscribed to the task that is neither in the explicit
mention-target set nor the commenter receives exactly one created
notification, and its type is `reply`, not `mention`. -/
theorem processComment_reply_exactly_one (taskId fromAgent content : String)
    (aa : Option (List String)) (s : NotifState) (a : String)
    (hsu : SubsUnique s)
    (hsub : ∃ sub ∈ s.subscriptions, sub.taskId = taskId ∧ sub.agent = a)
    (hnotm : a ∉ commentExplicit (lowerStr fromAgent) content aa)
    (hne : a ≠ lowerStr fromAgent) :
    ((processComment taskId fromAgent content aa s).1.filter
        (fun n => n.targetAgent == a)).map (fun n => n.type) = [NotifType.reply] := by
  rw [filter_target_pairs, processComment_pairs, List.filter_append, List.map_append]
  have hexp : ((commentExplicit (lowerStr fromAgent) content aa).map
      (fun x => (x, NotifType.mention))).filter (fun p => p.1 == a) = [] := by
    rw [List.filter_map]
    have : (commentExplicit (lowerStr fromAgent) content aa).filter
        ((fun p : String × NotifType => p.1 == a) ∘ (fun x => (x, NotifType.mention))) = [] := by
      rw [List.filter_eq_nil_iff]
      intro b hb
      simp only [Function.comp_apply, beq_iff_eq]
      intro hba
      exact hnotm (hba ▸ hb)
    rw [this, List.map_nil]
  have himp : a ∈ commentImplicit taskId (lowerStr fromAgent)
      (commentExplicit (lowerStr fromAgent) content aa) s := by
    unfold commentImplicit
    apply List.mem_filter.mpr
    refine ⟨?_, ?_⟩
    · unfold taskSubscribers
      rcases hsub with ⟨sub, hs1, hs2, hs3⟩
      exact List.mem_map.mpr ⟨sub, List.mem_filter.mpr ⟨hs1, by simp [hs2]⟩, hs3⟩
    · simp only [Bool.and_eq_true, Bool.not_eq_true', bne_iff_ne]
      exact ⟨by simpa using hnotm, hne⟩
  have hnd : (commentImplicit taskId (lowerStr fromAgent)
      (commentExplicit (lowerStr fromAgent) content aa) s).Nodup :=
    List.Nodup.filter _ (taskSubscribers_nodup taskId s hsu)
  have himpf : ((commentImplicit taskId (lowerStr fromAgent)
      (commentExplicit (lowerStr fromAgent) content aa) s).map
      (fun x => (x, NotifType.reply))).filter (fun p => p.1 == a) = [(a, NotifType.reply)] := by
    rw [List.filter_map]
    have : (commentImplicit taskId (lowerStr fromAgent)
        (commentExplicit (lowerStr fromAgent) content aa) s).filter
        ((fun p : String × NotifType => p.1 == a) ∘ (fun x => (x, NotifType.reply))) = [a] := by
      have heq : ((fun p : String × NotifType => p.1 == a) ∘ (fun x => (x, NotifType.reply))) =
          (fun x => x == a) := by
        funext x
        rfl
      rw [heq]
      exact nodup_filter_beq _ a hnd himp
    rw [this, List.map_cons, List.map_nil]
  rw [hexp, himpf, List.map_nil, List.nil_append, List.map_cons, List.map_nil]

theorem subscribe_noop (t a : String) (r : SubReason) (st : NotifState)
    (h : (st.subscriptions.any
      (fun sub => sub.taskId == t && sub.agent == lowerStr a)) = true) :
    subscribe t a r st = st := by
  unfold subscribe
  dsimp only
  rw [if_pos h]

theorem subscribe_append (t a : String) (r : SubReason) (st : NotifState)
    (h : (st.subscriptions.any
      (fun sub => sub.taskId == t && sub.agent == lowerStr a)) = false) :
    subscribe t a r st =
      { st with subscriptions := st.subscriptions ++ [⟨t, lowerStr a, r, st.now⟩] } := by
  unfold subscribe
  dsimp only
  rw [if_neg (by simp [h])]

/-- C5: subscribing twice with the same `(taskId, agent)` leaves exactly
one subscription under that composite key, carrying the first call's
reason; the stored handle is the lower-cased input. -/
theorem subscribe_dedup_keeps_first (taskId agent : String) (rA rB : SubReason)
    (s : NotifState)
    (h : ∀ sub ∈ s.subscriptions, ¬(sub.taskId = taskId ∧ sub.agent = lowerStr agent)) :
    (subscribe taskId agent rB (subscribe taskId agent rA s)).subscriptions.filter
        (fun sub => sub.taskId == taskId && sub.agent == lowerStr agent) =
      [⟨taskId, lowerStr agent, rA, s.now⟩] := by
  have hany : (s.subscriptions.any
      (fun sub => sub.taskId == taskId && sub.agent == lowerStr agent)) = false := by
    rw [List.any_eq_false]
    intro sub hsub
    simp only [Bool.and_eq_true, beq_iff_eq, not_and]
    intro h1 h2
    exact h sub hsub ⟨h1, h2⟩
  have h1 := subscribe_append taskId agent rA s hany
  have hany2 : ((subscribe taskId agent rA s).subscriptions.any
      (fun sub => sub.taskId == taskId && sub.agent == lowerStr agent)) = true := by
    rw [h1]
    dsimp only
    rw [List.any_append]
    apply Bool.or_eq_true_iff.mpr
    right
    simp
  rw [subscribe_noop taskId agent rB _ hany2, h1]
  dsimp only
  rw [List.filter_append]
  have h3 : s.subscriptions.filter
      (fun sub => sub.taskId == taskId && sub.agent == lowerStr agent) = [] := by
    rw [List.filter_eq_nil_iff]
    intro sub hsub
    simp only [Bool.and_eq_true, beq_iff_eq, not_and]
    intro e1 e2
    exact h sub hsub ⟨e1, e2⟩
  rw [h3, List.nil_append]
  rw [List.filter_cons, if_pos (by simp)]
  rfl

theorem subscribe_mono (t a : String) (r : SubReason) (st : NotifState) (sub : Subscription)
    (h : sub ∈ st.subscriptions) : sub ∈ (subscribe t a r st).subscriptions := by
  unfold subscribe
  dsimp only
  split
  · exact h
  · exact List.mem_append_left _ h

theorem foldl_subscribe_mono (t : String) (r : SubReason) (l : List String)
    (st : NotifState) (sub : Subscription) (h : sub ∈ st.subscriptions) :
    sub ∈ (l.foldl (fun acc x => subscribe t x r acc) st).subscriptions := by
  induction l generalizing st with
  | nil => exact h
  | cons x xs ih =>
    rw [List.foldl_cons]
    exact ih _ (subscribe_mono t x r st sub h)

theorem foldl_subscribe_fresh_reason (t : String) (r : SubReason) (l : List String)
    (st : NotifState) (a : String) (ha : a ∈ l) (hl : ∀ x ∈ l, lowerStr x = x)
    (hfresh : ∀ sub ∈ st.subscriptions, ¬(sub.taskId = t ∧ sub.agent = a)) :
    ∃ sub ∈ (l.foldl (fun acc x => subscribe t x r acc) st).subscriptions,
      sub.taskId = t ∧ sub.agent = a ∧ sub.reason = r := by
  induction l generalizing st with
  | nil => simp at ha
  | cons x xs ih =>
    rw [List.foldl_cons]
    by_cases hxa : x = a
    · subst hxa
      have hlx : lowerStr x = x := hl x (List.mem_cons_self _ _)
      have hany : (st.subscriptions.any
          (fun sub => sub.taskId == t && sub.agent == lowerStr x)) = false := by
        rw [List.any_eq_false]
        intro sub hsub
        simp only [Bool.and_eq_true, beq_iff_eq, not_and]
        intro e1 e2
        rw [hlx] at e2
        exact hfresh sub hsub ⟨e1, e2⟩
      refine ⟨⟨t, x, r, st.now⟩, ?_, rfl, rfl, rfl⟩
      apply foldl_subscribe_mono
      rw [subscribe_append t x r st hany]
      dsimp only
      apply List.mem_append_right
      rw [hlx]
      exact List.mem_singleton_self _
    · have ha2 : a ∈ xs := by
        rcases List.mem_cons.mp ha with h1 | h1
        · exact absurd h1.symm hxa
        · exact h1
      refine ih _ ha2 (fun y hy => hl y (List.mem_cons_of_mem _ hy)) ?_
      intro sub hsub
      rcases subscribe_subscriptions_sub t x r st sub hsub with h1 | h1
      · exact hfresh sub h1
      · subst h1
        rintro ⟨e1, e2⟩
        dsimp only at e2
        rw [hl x (List.mem_cons_self _ _)] at e2
        exact hxa e2

theorem notifyAssignment_pairs (taskId : String) (assignees : List String) (byAgent : String)
    (s : NotifState) :
    (notifyAssignment taskId assignees byAgent s).1.map (fun n => (n.targetAgent, n.type)) =
      ((assignees.map lowerStr).filter (fun a => a != lowerStr byAgent)).map
        (fun a => (a, NotifType.assignment)) := by
  unfold notifyAssignment
  dsimp only
  rw [createNotifs_pairs]

theorem notifyAssignment_no_self (taskId : String) (assignees : List String) (byAgent : String)
    (s : NotifState) :
    ∀ n ∈ (notifyAssignment taskId assignees byAgent s).1,
      n.targetAgent ≠ lowerStr byAgent := by
  intro n hn
  have hp : (n.targetAgent, n.type) ∈
      (notifyAssignment taskId assignees byAgent s).1.map (fun n => (n.targetAgent, n.type)) :=
    List.mem_map.mpr ⟨n, hn, rfl⟩
  rw [notifyAssignment_pairs] at hp
  rcases List.mem_map.mp hp with ⟨a, ha, heq⟩
  have h2 : a = n.targetAgent := congrArg Prod.fst heq
  rw [← h2]
  have := List.of_mem_filter ha
  simpa using this

theorem notifyAssignment_subscribes (taskId : String) (assignees : List String)
    (byAgent : String) (s : NotifState) :
    ∀ a ∈ (assignees.map lowerStr).filter (fun a => a != lowerStr byAgent),
      (∀ sub ∈ s.subscriptions, ¬(sub.taskId = taskId ∧ sub.agent = a)) →
        ∃ sub ∈ (notifyAssignment taskId assignees byAgent s).2.subscriptions,
          sub.taskId = taskId ∧ sub.agent = a ∧ sub.reason = SubReason.assigned := by
  intro a ha hfresh
  have hl : ∀ x ∈ (assignees.map lowerStr).filter (fun a => a != lowerStr byAgent),
      lowerStr x = x := by
    intro x hx
    rcases List.mem_map.mp (List.mem_of_mem_filter hx) with ⟨y, _, hy⟩
    rw [← hy, lowerStr_idem]
  unfold notifyAssignment
  dsimp only
  apply foldl_subscribe_fresh_reason _ _ _ _ a ha hl
  rw [createNotifs_subscriptions]
  exact hfresh

theorem length_status_partition (l : List RegisteredAgent) :
    l.length = (l.filter (fun a => a.status == AgentStatus.online)).length +
      (l.filter (fun a => a.status == AgentStatus.busy)).length +
      (l.filter (fun a => a.status == AgentStatus.idle)).length +
      (l.filter (fun a => a.status == AgentStatus.offline)).length := by
  induction l with
  | nil => rfl
  | cons a rest ih =>
    cases h : a.status <;> simp [List.filter_cons, h, ih] <;> omega

/-- C7: re-registering an existing id preserves `registeredAt`, resets
`status` to online and `lastHeartbeat` to now, updates every field present
in the input, and replaces the metadata map entirely with the input's. -/
theorem register_existing (inp : RegisterInput) (s : RegistryState) (old : RegisteredAgent)
    (hfind : s.agents.find? (fun a => a.id == inp.id) = some old) :
    (register inp s).1.registeredAt = old.registeredAt ∧
    (register inp s).1.status = AgentStatus.online ∧
    (register inp s).1.lastHeartbeat = s.now ∧
    (register inp s).1.name = inp.name ∧
    (∀ m, inp.model = some m → (register inp s).1.model = some m) ∧
    (∀ p, inp.provider = some p → (register inp s).1.provider = some p) ∧
    (∀ cs, inp.capabilities = some cs → (register inp s).1.capabilities = cs) ∧
    (∀ md, inp.metadata = some md → (register inp s).1.metadata = md) ∧
    (register inp s).2.agents =
      s.agents.map (fun b => if b.id == inp.id then (register inp s).1 else b) := by
  unfold register
  rw [hfind]
  dsimp only
  refine ⟨rfl, rfl, rfl, rfl, ?_, ?_, ?_, ?_, rfl⟩
  · intro m hm
    rw [hm]
  · intro p hp
    rw [hp]
  · intro cs hcs
    rw [hcs, Option.getD_some]
  · intro md hmd
    rw [hmd, Option.getD_some]

theorem find?_filter_of_imp {α : Type} (l : List α) (p q : α → Bool)
    (h : ∀ x, p x = true → q x = true) : (l.filter q).find? p = l.find? p := by
  induction l with
  | nil => rfl
  | cons x xs ih =>
    by_cases hq : q x = true
    · simp only [List.filter_cons, hq, if_true]
      cases hp : p x <;> simp [List.find?_cons, hp, ih]
    · have hp : p x = false := by
        cases hpx : p x
        · rfl
        · exact absurd (h x hpx) hq
      simp only [List.filter_cons, hq, Bool.false_eq_true, if_false]
      simp [List.find?_cons, hp, ih]

theorem lookupMeta_mergeMeta (old new : List (String × String)) (k : String) :
    lookupMeta (mergeMeta old new) k =
      if new.any (fun kv => kv.1 == k) then lookupMeta new k else lookupMeta old k := by
  unfold lookupMeta mergeMeta
  by_cases h : (new.any (fun kv => kv.1 == k)) = true
  · rw [if_pos h, List.find?_append]
    have hnone : (old.filter (fun kv => !(new.any (fun kv2 => kv2.1 == kv.1)))).find?
        (fun kv => kv.1 == k) = none := by
      rw [List.find?_eq_none]
      intro kv hkv hbeq
      have h1 := List.of_mem_filter hkv
      have h2 : kv.1 = k := by simpa using hbeq
      rw [h2] at h1
      simp [h] at h1
    rw [hnone, Option.none_or]
  · rw [if_neg h, List.find?_append]
    have hanyf : (new.any (fun kv => kv.1 == k)) = false := by
      cases hx : new.any (fun kv => kv.1 == k)
      · rfl
      · exact absurd hx h
    have heq : (old.filter (fun kv => !(new.any (fun kv2 => kv2.1 == kv.1)))).find?
        (fun kv => kv.1 == k) = old.find? (fun kv => kv.1 == k) := by
      apply find?_filter_of_imp
      intro kv hp
      have h2 : kv.1 = k := by simpa using hp
      rw [h2, hanyf]
      rfl
    rw [heq]
    have hnew : new.find? (fun kv => kv.1 == k) = none := by
      rw [List.find?_eq_none]
      intro kv hkv hbeq
      exact h (List.any_eq_true.mpr ⟨kv, hkv, hbeq⟩)
    rw [hnew]
    cases old.find? (fun kv => kv.1 == k) <;> rfl

theorem heartbeat_registered (id : String) (hb : HeartbeatInput) (s : RegistryState)
    (old : RegisteredAgent) (hfind : s.agents.find? (fun a => a.id == id) = some old) :
    ∃ a, (heartbeat id hb s).1 = some a ∧
      a.lastHeartbeat = s.now ∧
      ((hb.status = some AgentStatus.idle ∨ hb.currentTaskId = some "" ∨
          hb.currentTaskTitle = some "") →
        a.currentTaskId = none ∧ a.currentTaskTitle = none) ∧
      (∀ md, hb.metadata = some md → ∀ k,
        lookupMeta a.metadata k =
          if md.any (fun kv => kv.1 == k) then lookupMeta md k
          else lookupMeta old.metadata k) ∧
      (∀ st, hb.status = some st → a.status = st) := by
  unfold heartbeat
  rw [hfind]
  dsimp only
  refine ⟨_, rfl, rfl, ?_, ?_, ?_⟩
  · intro hdisj
    have hct : (hb.status == some AgentStatus.idle || hb.currentTaskId == some "" ||
        hb.currentTaskTitle == some "") = true := by
      rcases hdisj with h | h | h <;> simp [h]
    rw [hct]
    exact ⟨rfl, rfl⟩
  · intro md hmd k
    rw [hmd]
    dsimp only
    exact lookupMeta_mergeMeta old.metadata md k
  · intro st hst
    rw [hst]
    rfl

theorem heartbeat_unregistered (id : String) (hb : HeartbeatInput) (s : RegistryState)
    (hfind : s.agents.find? (fun a => a.id == id) = none) :
    (heartbeat id hb s).1 = none ∧ (heartbeat id hb s).2 = s := by
  unfold heartbeat
  rw [hfind]
  exact ⟨rfl, rfl⟩

/-- C9 (amended): a `POST /notifications/process` body missing `fromAgent`
or `content` is answered with a 500 server error from the shared validation
layer — not a 400 — and no state is mutated by the rejected request. -/
theorem processRoute_validation_500 (body : ProcessBody) (s : NotifState)
    (h : body.fromAgent = none ∨ body.content = none) :
    (processRoute body s).1 = 500 ∧ (processRoute body s).2 = s := by
  obtain ⟨t, f, c, aa⟩ := body
  rcases h with h | h
  · dsimp only at h
    subst h
    cases t <;> cases c <;> exact ⟨rfl, rfl⟩
  · dsimp only at h
    subst h
    cases t <;> cases f <;> exact ⟨rfl, rfl⟩

/-- C9 counterexample: the request body `{taskId: "TASK-1"}` (missing
`fromAgent` and `content`) receives status 500, and 500 is not the 400 the
claim asserts. -/
theorem processRoute_not_400 :
    (processRoute ⟨some "TASK-1", none, none, none⟩ initNotifState).1 = 500 ∧
    (500 : Nat) ≠ 400 := by decide

/-- C10: each agent holds exactly one status of the closed enumeration, so
the four status buckets of `stats()` partition the agent table:
`total = online + busy + idle + offline`. -/
theorem stats_partition (s : RegistryState) :
    (stats s).total =
      (stats s).online + (stats s).busy + (stats s).idle + (stats s).offline :=
  length_status_partition s.agents

/-- C4: `markDelivered` returns true exactly when a notification with the
id exists; once it has returned true, no later `getNotifications` query
with `undelivered := true` contains that id, whatever engine operations
run in between; and the delivered flag only ever flips false→true under
any operation. -/
theorem markDelivered_monotone (s : NotifState) (id : Nat) (q : NotifQuery)
    (ops : List NotifOp) (hb : IdsBounded s) (hq : q.undelivered = true) :
    ((markDelivered id s).1 = true ↔ ∃ n ∈ s.notifications, n.id = id) ∧
    ((markDelivered id s).1 = true →
      ∀ n ∈ getNotifications q (applyOps ops (markDelivered id s).2), n.id ≠ id) ∧
    (∀ op : NotifOp, ∀ i : Nat, i < s.nextId → DeliveredById s i →
      DeliveredById (applyOp op s) i) := by
  refine ⟨markDelivered_true_iff id s, ?_,
    fun op i hi hd => applyOp_deliveredById op s i hi hd⟩
  intro htrue n hn hnid
  have hex := (markDelivered_true_iff id s).mp htrue
  have hid1 : id < (markDelivered id s).2.nextId :=
    markDelivered_nextId_preserved id s hex hb
  have hdel : DeliveredById (applyOps ops (markDelivered id s).2) id :=
    applyOps_deliveredById ops _ id hid1 (markDelivered_deliveredById id s htrue)
  have hnd : n.delivered = false := getNotifications_undelivered q _ n hq hn
  have hmem := (getNotifications_mem q _ n hn).1
  have := hdel n hmem hnid
  rw [this] at hnd
  exact absurd hnd (by simp)

/-- C1: no created notification ever targets the commenting agent; a
self-mention produces nothing, and an `@all` mention fans out a `mention`
notification to every handle in `allAgents` other than `fromAgent`
(checked exactly on the spec's concrete `@all` scenario). -/
theorem processComment_self_exclusion (taskId fromAgent content : String)
    (aa : Option (List String)) (s : NotifState) :
    (∀ n ∈ (processComment taskId fromAgent content aa s).1,
      n.targetAgent ≠ lowerStr fromAgent) ∧
    ("all" ∈ parseMentions content →
      ∀ a ∈ (aa.getD []).map lowerStr, a ≠ lowerStr fromAgent →
        ∃ n ∈ (processComment taskId fromAgent content aa s).1,
          n.targetAgent = a ∧ n.type = NotifType.mention) ∧
    ((processComment "TASK-1" "alice" "@all please review" (some ["alice", "bob", "charlie"])
        initNotifState).1.map (fun n => (n.targetAgent, n.type)) =
      [("bob", NotifType.mention), ("charlie", NotifType.mention)]) :=
  ⟨processComment_no_self_target taskId fromAgent content aa s,
   fun hall => processComment_all_mention taskId fromAgent content aa s hall,
   by decide⟩

theorem processComment_self_exclusion_witness :
    (processComment "TASK-1" "alice" "@all please review" (some ["alice", "bob", "charlie"])
        initNotifState).1.map (fun n => (n.targetAgent, n.type)) =
      [("bob", NotifType.mention), ("charlie", NotifType.mention)] :=
  (processComment_self_exclusion "TASK-1" "alice" "@all please review"
    (some ["alice", "bob", "charlie"]) initNotifState).2.2

/-- C2: `parseMentions` returns the mention handles deduplicated to their
first occurrences in order, all lower-cased, and returns the empty sequence
on any input without an `@` token, the empty string included. -/
theorem parseMentions_contract (text : String) :
    (parseMentions text).Nodup ∧
    (∀ h ∈ parseMentions text, lowerStr h = h) ∧
    parseMentions text = keepFirsts ((scanMentions text.data).map lowerStr) ∧
    (∀ h, h ∈ parseMentions text ↔ h ∈ (scanMentions text.data).map lowerStr) ∧
    ('@' ∉ text.data → parseMentions text = []) := by
  refine ⟨?_, ?_, parseMentions_eq_keepFirsts text, ?_, parseMentions_of_no_at text⟩
  · rw [parseMentions_eq_keepFirsts]
    exact keepFirsts_nodup _
  · intro h hm
    rw [parseMentions_eq_keepFirsts, mem_keepFirsts] at hm
    rcases List.mem_map.mp hm with ⟨x, _, hx⟩
    rw [← hx, lowerStr_idem]
  · intro h
    rw [parseMentions_eq_keepFirsts, mem_keepFirsts]

theorem parseMentions_contract_witness :
    parseMentions "@Alice @BOB @alice" =
      keepFirsts ((scanMentions ("@Alice @BOB @alice").data).map lowerStr) :=
  (parseMentions_contract "@Alice @BOB @alice").2.2.1

theorem processComment_reply_witness :
    ((processComment "TASK-1" "alice" "Making progress" none
        (subscribe "TASK-1" "bob" SubReason.manual initNotifState)).1.filter
        (fun n => n.targetAgent == "bob")).map (fun n => n.type) = [NotifType.reply] :=
  processComment_reply_exactly_one "TASK-1" "alice" "Making progress" none
    (subscribe "TASK-1" "bob" SubReason.manual initNotifState) "bob"
    (by unfold SubsUnique; decide) (by decide) (by decide) (by decide)

theorem markDelivered_monotone_witness :
    (markDelivered 0 (processComment "TASK-1" "alice" "@bob hello" none
        initNotifState).2).1 = true ↔
      ∃ n ∈ (processComment "TASK-1" "alice" "@bob hello" none
        initNotifState).2.notifications, n.id = 0 :=
  (markDelivered_monotone (processComment "TASK-1" "alice" "@bob hello" none
    initNotifState).2 0 ⟨"bob", true, none, none⟩ [] (by unfold IdsBounded; decide) rfl).1

theorem subscribe_dedup_witness :
    (subscribe "TASK-1" "alice" SubReason.commented
        (subscribe "TASK-1" "alice" SubReason.manual initNotifState)).subscriptions.filter
        (fun sub => sub.taskId == "TASK-1" && sub.agent == lowerStr "alice") =
      [⟨"TASK-1", lowerStr "alice", SubReason.manual, 0⟩] :=
  subscribe_dedup_keeps_first "TASK-1" "alice" SubReason.manual SubReason.commented
    initNotifState (by decide)

/-- C6: `notifyAssignment` creates exactly one `assignment` notification
per assignee other than the assigner (in order), never notifies the
assigner, and subscribes each notified assignee with reason `assigned`. -/
theorem notifyAssignment_contract (taskId : String) (assignees : List String)
    (byAgent : String) (s : NotifState) :
    ((notifyAssignment taskId assignees byAgent s).1.map (fun n => (n.targetAgent, n.type)) =
      ((assignees.map lowerStr).filter (fun a => a != lowerStr byAgent)).map
        (fun a => (a, NotifType.assignment))) ∧
    (∀ n ∈ (notifyAssignment taskId assignees byAgent s).1,
      n.targetAgent ≠ lowerStr byAgent) ∧
    (∀ a ∈ (assignees.map lowerStr).filter (fun a => a != lowerStr byAgent),
      (∀ sub ∈ s.subscriptions, ¬(sub.taskId = taskId ∧ sub.agent = a)) →
        ∃ sub ∈ (notifyAssignment taskId assignees byAgent s).2.subscriptions,
          sub.taskId = taskId ∧ sub.agent = a ∧ sub.reason = SubReason.assigned) :=
  ⟨notifyAssignment_pairs taskId assignees byAgent s,
   notifyAssignment_no_self taskId assignees byAgent s,
   notifyAssignment_subscribes taskId assignees byAgent s⟩

theorem notifyAssignment_contract_witness :
    (notifyAssignment "TASK-1" ["alice", "bob"] "alice" initNotifState).1.map
      (fun n => (n.targetAgent, n.type)) =
      ((["alice", "bob"].map lowerStr).filter (fun a => a != lowerStr "alice")).map
        (fun a => (a, NotifType.assignment)) :=
  (notifyAssignment_contract "TASK-1" ["alice", "bob"] "alice" initNotifState).1

theorem register_existing_witness :
    (register ⟨"x", "y", none, none, none, none⟩
        (register ⟨"x", "Test Agent", none, none, some [⟨"code"⟩], none⟩
          initRegistry).2).1.registeredAt =
      (⟨"x", "Test Agent", none, none, [⟨"code"⟩], AgentStatus.online, none, none, [], 0, 0⟩ :
        RegisteredAgent).registeredAt :=
  (register_existing ⟨"x", "y", none, none, none, none⟩
    (register ⟨"x", "Test Agent", none, none, some [⟨"code"⟩], none⟩ initRegistry).2
    ⟨"x", "Test Agent", none, none, [⟨"code"⟩], AgentStatus.online, none, none, [], 0, 0⟩
    (by decide)).1

/-- C8: for a registered id, `heartbeat` refreshes `lastHeartbeat`, clears
both task fields to absent on idle status or empty-string task fields, and
merges payload metadata key-by-key so untouched keys survive; for an
unregistered id it returns not-found and leaves the state unchanged. -/
theorem heartbeat_contract (id : String) (hb : HeartbeatInput) (s : RegistryState) :
    (∀ old, s.agents.find? (fun a => a.id == id) = some old →
      ∃ a, (heartbeat id hb s).1 = some a ∧
        a.lastHeartbeat = s.now ∧
        ((hb.status = some AgentStatus.idle ∨ hb.currentTaskId = some "" ∨
            hb.currentTaskTitle = some "") →
          a.currentTaskId = none ∧ a.currentTaskTitle = none) ∧
        (∀ md, hb.metadata = some md → ∀ k,
          lookupMeta a.metadata k =
            if md.any (fun kv => kv.1 == k) then lookupMeta md k
            else lookupMeta old.metadata k) ∧
        (∀ st, hb.status = some st → a.status = st)) ∧
    (s.agents.find? (fun a => a.id == id) = none →
      (heartbeat id hb s).1 = none ∧ (heartbeat id hb s).2 = s) :=
  ⟨fun old hf => heartbeat_registered id hb s old hf,
   fun hf => heartbeat_unregistered id hb s hf⟩

theorem heartbeat_contract_witness :
    ∃ a, (heartbeat "x" ⟨some AgentStatus.idle, some "", some "", none⟩
        (heartbeat "x" ⟨some AgentStatus.busy, some "TASK-1", none, none⟩
          (register ⟨"x", "n", none, none, none, none⟩ initRegistry).2).2).1 = some a ∧
      a.lastHeartbeat = (heartbeat "x" ⟨some AgentStatus.busy, some "TASK-1", none, none⟩
          (register ⟨"x", "n", none, none, none, none⟩ initRegistry).2).2.now ∧
      (((⟨some AgentStatus.idle, some "", some "", none⟩ : HeartbeatInput).status =
            some AgentStatus.idle ∨
          (⟨some AgentStatus.idle, some "", some "", none⟩ : HeartbeatInput).currentTaskId =
            some "" ∨
          (⟨some AgentStatus.idle, some "", some "", none⟩ : HeartbeatInput).currentTaskTitle =
            some "") →
        a.currentTaskId = none ∧ a.currentTaskTitle = none) ∧
      (∀ md, (⟨some AgentStatus.idle, some "", some "", none⟩ : HeartbeatInput).metadata =
          some md → ∀ k,
        lookupMeta a.metadata k =
          if md.any (fun kv => kv.1 == k) then lookupMeta md k
          else lookupMeta (⟨"x", "n", none, none, [], AgentStatus.busy, some "TASK-1", none,
            [], 0, 0⟩ : RegisteredAgent).metadata k) ∧
      (∀ st, (⟨some AgentStatus.idle, some "", some "", none⟩ : HeartbeatInput).status =
          some st → a.status = st) :=
  (heartbeat_contract "x" ⟨some AgentStatus.idle, some "", some "", none⟩
    (heartbeat "x" ⟨some AgentStatus.busy, some "TASK-1", none, none⟩
      (register ⟨"x", "n", none, none, none, none⟩ initRegistry).2).2).1
    ⟨"x", "n", none, none, [], AgentStatus.busy, some "TASK-1", none, [], 0, 0⟩
    (by decide)

theorem processRoute_validation_500_witness :
    (processRoute ⟨some "TASK-1", none, none, none⟩ initNotifState).1 = 500 ∧
    (processRoute ⟨some "TASK-1", none, none, none⟩ initNotifState).2 = initNotifState :=
  processRoute_validation_500 ⟨some "TASK-1", none, none, none⟩ initNotifState (Or.inl rfl)